import Mathlib

/-!
Shallow embedding of `insights-ansible-playbook-verifier-poc-go` (src/main.go
and the serializer file).  Documents are the order-preserving `yaml.MapSlice`
values produced by the YAML library, modelled as lists of key/value pairs with
string keys (the Go code asserts `item.Key.(string)` everywhere; documents
with non-string keys are outside the scope of the claims).  Go runtime panics
caused by failed type assertions are modelled by the explicit error value
`GoErr.goPanic`, since Go returns no error value in those situations.
-/

namespace PlaybookVerifier

/-- The value model: the tags a parsed YAML node can carry.  `vmap` is the
order-preserving `yaml.MapSlice`, `vlist` a YAML sequence, and `vnum`/`vnull`
are the scalar tags that reach the serializer's `default` branch. -/
inductive Value where
  | vmap : List (String × Value) → Value
  | vlist : List Value → Value
  | vbool : Bool → Value
  | vstr : String → Value
  | vnum : Int → Value
  | vnull : Value

/-- A document is an ordered sequence of key/value pairs (`yaml.MapSlice`). -/
abbrev Document := List (String × Value)

/-- Errors of the Go program.  `playbookError` and `verificationError` embed
the error structs of main.go (the latter is declared there but never raised);
`goPanic` models a Go runtime panic from a failed type assertion
(`pair.Value.(string)`, `item.Value.(yaml.MapSlice)`, `item.(string)`). -/
inductive GoErr where
  | playbookError (message : String)
  | verificationError (message : String)
  | goPanic
  deriving DecidableEq, Repr

/-- Go `strings.Split` for a one-character separator: splits at every
occurrence, keeping empty fields; the empty string yields `[[]]` (Go: `[""]`).
Embeds the `strings.Split(rawExclusions, ",")` and `strings.Split(…, "/")`
calls of GetPlaybookExclusions. -/
def goSplit (sep : Char) : List Char → List (List Char)
  | [] => [[]]
  | c :: rest =>
      let r := goSplit sep rest
      if c = sep then [] :: r
      else (c :: r.headD []) :: r.tail

/-- Go `strings.TrimPrefix(s, "/")` for a one-character pattern: removes one
leading occurrence if present. -/
def goTrimLead (sep : Char) : List Char → List Char
  | [] => []
  | c :: rest => if c = sep then rest else c :: rest

/-- Splits a comma-separated exclusion entry into its path segments, as
main.go lines 75–76: strip one leading `/`, then split on `/`. -/
def parseExclusionEntry (e : List Char) : List String :=
  (goSplit '/' (goTrimLead '/' e)).map String.mk

/-- The inner loop of GetPlaybookExclusions (main.go lines 60–66): the first
pair of the `vars` mapping whose key is `insights_signature_exclude`. -/
def scanVars : List (String × Value) → Option Value
  | [] => none
  | (k, v) :: rest =>
      if k = "insights_signature_exclude" then some v else scanVars rest

/-- The outer loop of GetPlaybookExclusions (main.go lines 55–67), threading
the `rawExclusions` accumulator.  A `vars` entry whose value is not a mapping
panics (`item.Value.(yaml.MapSlice)`); a found `insights_signature_exclude`
pair whose value is not a string panics (`pair.Value.(string)`); a `vars`
mapping without the key leaves the accumulator unchanged. -/
def findRawExclusions : Document → String → Except GoErr String
  | [], acc => Except.ok acc
  | (k, v) :: rest, acc =>
      if k = "vars" then
        match v with
        | Value.vmap vars =>
            match scanVars vars with
            | some (Value.vstr s) => findRawExclusions rest s
            | some _ => Except.error GoErr.goPanic
            | none => findRawExclusions rest acc
        | _ => Except.error GoErr.goPanic
      else findRawExclusions rest acc

/-- GetPlaybookExclusions (main.go lines 53–79): extract the raw exclusion
string, fail with PlaybookError when it is empty, otherwise split into
paths.  No validation of segment counts is performed. -/
def GetPlaybookExclusions (p : Document) : Except GoErr (List (List String)) := do
  let raw ← findRawExclusions p ""
  if raw = "" then
    Except.error (GoErr.playbookError "playbook doesn't contain key 'insights_signature_exclude'")
  else
    Except.ok ((goSplit ',' raw.data).map parseExclusionEntry)

/-- The depth-1 match of main.go line 119:
`directValueName == exclusion[0] && len(exclusion) == 1`.  An empty path
would make Go panic on `exclusion[0]`; GetPlaybookExclusions can never
produce one (`strings.Split` always yields at least one segment), and the
filtering theorems below restrict to exclusion lists without empty paths. -/
def depth1Matches (exclusions : List (List String)) (directName : String) : Bool :=
  exclusions.any fun e =>
    match e with
    | [a] => directName = a
    | _ => false

/-- The depth-2 match of main.go line 101:
`directValueName == exclusion[0] && len(exclusion) == 2 && nestedValueName == exclusion[1]`. -/
def depth2Matches (exclusions : List (List String)) (directName nestedName : String) : Bool :=
  exclusions.any fun e =>
    match e with
    | [a, b] => directName = a && nestedName = b
    | _ => false

/-- The nested filtering loop of main.go lines 96–113: keep every nested pair
that no depth-2 exclusion matches. -/
def cleanNested (exclusions : List (List String)) (directName : String)
    (nested : List (String × Value)) : List (String × Value) :=
  nested.filter fun nv => !(depth2Matches exclusions directName nv.1)

/-- One iteration of the filtering loop of main.go lines 88–131: a
mapping-valued entry is always kept, with its nested pairs filtered (the
`reflect.TypeOf` branch never consults the depth-1 exclusions); any other
entry is dropped exactly when a depth-1 exclusion matches its key. -/
def cleanItem (exclusions : List (List String)) (item : String × Value) :
    Option (String × Value) :=
  match item.2 with
  | Value.vmap nested => some (item.1, Value.vmap (cleanNested exclusions item.1 nested))
  | _ => if depth1Matches exclusions item.1 then none else some item

/-- The filtering loop of CleanPlaybook (main.go lines 87–131), over an
arbitrary exclusion list. -/
def cleanLoop (exclusions : List (List String)) (p : Document) : Document :=
  p.filterMap (cleanItem exclusions)

/-- CleanPlaybook (main.go lines 81–135): extract the exclusions from the
document itself, then run the filtering loop.  Note that the allow-set
`DynamicLabels` declared at main.go line 14 is never consulted here, and no
`VerificationError` is ever raised. -/
def CleanPlaybook (p : Document) : Except GoErr Document := do
  let exclusions ← GetPlaybookExclusions p
  Except.ok (cleanLoop exclusions p)

/-- Byte strings of the serializer, modelled as character lists. -/
abbrev Bytes := List Char

/-- The characters of a string literal. -/
def strB (s : String) : Bytes := s.data

/-- Joins parts with a separator, as the Go serializer's `if i > 0` comma
logic does (serializer lines 276–278 and 300–302). -/
def joinSep (sep : Bytes) : List Bytes → Bytes
  | [] => []
  | [x] => x
  | x :: y :: rest => x ++ sep ++ joinSep sep (y :: rest)

mutual

/-- marshallPlaybookItem (serializer lines 234–263).  The `yaml.MapSlice` and
`[]any` cases inline `marshallPlaybookMap` / `marshallPlaybookList` (proved
equal below); `bool` renders `True`/`False`; `string` is single-quoted; the
`default` branch runs `item.(string)` on a value already known not to be a
string, which always panics — `vnum` and `vnull` land there. -/
def marshallPlaybookItem : Value → Except GoErr Bytes
  | Value.vmap m => do
      let parts ← marshallMapParts m
      Except.ok (strB "ordereddict([" ++ joinSep (strB ", ") parts ++ strB "])")
  | Value.vlist l => do
      let parts ← marshallListParts l
      Except.ok (strB "[" ++ joinSep (strB ", ") parts ++ strB "]")
  | Value.vbool b => Except.ok (if b then strB "True" else strB "False")
  | Value.vstr s => Except.ok (strB "'" ++ strB s ++ strB "'")
  | Value.vnum _ => Except.error GoErr.goPanic
  | Value.vnull => Except.error GoErr.goPanic

/-- The pair loop of marshallPlaybookMap (serializer lines 268–285): each pair
renders as `('key', value)`, failing on the first unencodable value. -/
def marshallMapParts : List (String × Value) → Except GoErr (List Bytes)
  | [] => Except.ok []
  | (k, v) :: rest => do
      let value ← marshallPlaybookItem v
      let tail ← marshallMapParts rest
      Except.ok ((strB "('" ++ strB k ++ strB "', " ++ value ++ strB ")") :: tail)

/-- The element loop of marshallPlaybookList (serializer lines 294–304). -/
def marshallListParts : List Value → Except GoErr (List Bytes)
  | [] => Except.ok []
  | v :: rest => do
      let value ← marshallPlaybookItem v
      let tail ← marshallListParts rest
      Except.ok (value :: tail)

end

/-- marshallPlaybookMap (serializer lines 265–289): `ordereddict([` + parts
joined by `, ` + `])`. -/
def marshallPlaybookMap (m : List (String × Value)) : Except GoErr Bytes := do
  let parts ← marshallMapParts m
  Except.ok (strB "ordereddict([" ++ joinSep (strB ", ") parts ++ strB "])")

/-- marshallPlaybookList (serializer lines 291–308): `[` + parts joined by
`, ` + `]`. -/
def marshallPlaybookList (l : List Value) : Except GoErr Bytes := do
  let parts ← marshallListParts l
  Except.ok (strB "[" ++ joinSep (strB ", ") parts ++ strB "]")

/-- MarshallPlaybook (serializer lines 229–232). -/
def MarshallPlaybook (p : Document) : Except GoErr Bytes :=
  marshallPlaybookMap p

/-- Is a value a string?  (The type test behind `pair.Value.(string)`.) -/
def isStr : Value → Bool
  | Value.vstr _ => true
  | _ => false

/-- Is a value a nested mapping?  (The test of main.go line 92,
`reflect.TypeOf(directValue.Value) == reflect.TypeOf(yaml.MapSlice{})`.) -/
def isMapSlice : Value → Bool
  | Value.vmap _ => true
  | _ => false

/-- The top-level key sequence of a document. -/
def docKeys (d : Document) : List String := d.map Prod.fst

/-- The keep-condition of the filtering loop: an entry survives iff its value
is a nested mapping (the nested branch never drops the entry itself) or no
depth-1 exclusion matches its key. -/
def keepsEntry (exclusions : List (List String)) (it : String × Value) : Bool :=
  isMapSlice it.2 || !(depth1Matches exclusions it.1)

/-- The bytes the serializer emits for a boolean. -/
def boolBytes (b : Bool) : Bytes := if b then strB "True" else strB "False"

/-- Occurrence of a value somewhere inside another value, through nested
mappings and lists, at any depth. -/
inductive Occurs (x : Value) : Value → Prop where
  | refl : Occurs x x
  | inMap {k : String} {w : Value} {m : List (String × Value)} :
      (k, w) ∈ m → Occurs x w → Occurs x (Value.vmap m)
  | inList {w : Value} {l : List Value} :
      w ∈ l → Occurs x w → Occurs x (Value.vlist l)

/-- The Go `case yaml.MapSlice` of marshallPlaybookItem delegates to
marshallPlaybookMap; the inlined embedding agrees. -/
theorem marshallPlaybookItem_vmap (m : List (String × Value)) :
    marshallPlaybookItem (Value.vmap m) = marshallPlaybookMap m := by
  simp [marshallPlaybookItem, marshallPlaybookMap]

/-- The Go `case []any` of marshallPlaybookItem delegates to
marshallPlaybookList; the inlined embedding agrees. -/
theorem marshallPlaybookItem_vlist (l : List Value) :
    marshallPlaybookItem (Value.vlist l) = marshallPlaybookList l := by
  simp [marshallPlaybookItem, marshallPlaybookList]

/-- Entries whose key is not `vars` are skipped by the extractor's outer
loop, leaving the accumulator untouched. -/
theorem findRaw_skip (l rest : Document) (acc : String)
    (h : ∀ it ∈ l, it.1 ≠ "vars") :
    findRawExclusions (l ++ rest) acc = findRawExclusions rest acc := by
  induction l with
  | nil => rfl
  | cons it l ih =>
      obtain ⟨k, v⟩ := it
      have hk : k ≠ "vars" := by simpa using h (k, v) (List.mem_cons_self _ _)
      have hrest : ∀ it ∈ l, it.1 ≠ "vars" := fun it hit => h it (List.mem_cons_of_mem _ hit)
      simp [findRawExclusions, hk, ih hrest]

/-- On a document without a `vars` key the extractor's loop returns its
accumulator unchanged. -/
theorem findRaw_none (l : Document) (acc : String)
    (h : ∀ it ∈ l, it.1 ≠ "vars") :
    findRawExclusions l acc = Except.ok acc := by
  simpa using findRaw_skip l [] acc h

/-- The raw-exclusion accumulator computed over a document with exactly one
`vars` entry, whose value is a mapping: the first
`insights_signature_exclude` pair decides the outcome. -/
theorem findRaw_vars (pre post : Document) (vs : List (String × Value)) (acc : String)
    (hpre : ∀ it ∈ pre, it.1 ≠ "vars") (hpost : ∀ it ∈ post, it.1 ≠ "vars") :
    findRawExclusions (pre ++ ("vars", Value.vmap vs) :: post) acc =
      match scanVars vs with
      | some (Value.vstr s) => Except.ok s
      | some _ => Except.error GoErr.goPanic
      | none => Except.ok acc := by
  rw [findRaw_skip pre _ acc hpre]
  cases hsv : scanVars vs with
  | none => simp [findRawExclusions, hsv, findRaw_none post acc hpost]
  | some v => cases v <;> simp [findRawExclusions, hsv, findRaw_none post _ hpost]

/-- Each part is an infix of the separator-joined whole. -/
theorem infix_joinSep (sep : Bytes) (parts : List Bytes) (p : Bytes) (hp : p ∈ parts) :
    p <:+: joinSep sep parts := by
  induction parts with
  | nil => cases hp
  | cons x rest ih =>
      cases rest with
      | nil =>
          have hx : p = x := by simpa using hp
          subst hx
          exact List.infix_refl p
      | cons y t =>
          rcases List.mem_cons.mp hp with h | h
          · subst h
            exact ⟨[], sep ++ joinSep sep (y :: t), by simp [joinSep]⟩
          · exact (ih h).trans ⟨x ++ sep, [], by simp [joinSep]⟩

/-- If map serialization of the pair list succeeds, every pair's value was
serialized successfully and its bytes sit inside one of the parts. -/
theorem mapParts_mem (m : List (String × Value)) (parts : List Bytes)
    (h : marshallMapParts m = Except.ok parts) (k : String) (w : Value)
    (hmem : (k, w) ∈ m) :
    ∃ wb part, marshallPlaybookItem w = Except.ok wb ∧ part ∈ parts ∧ wb <:+: part := by
  induction m generalizing parts with
  | nil => cases hmem
  | cons it rest ih =>
      obtain ⟨k2, v2⟩ := it
      simp only [marshallMapParts, Bind.bind, Except.bind] at h
      cases hv : marshallPlaybookItem v2 with
      | error e => rw [hv] at h; cases h
      | ok wb =>
          rw [hv] at h
          cases ht : marshallMapParts rest with
          | error e => rw [ht] at h; cases h
          | ok tail =>
              rw [ht] at h
              have hparts : parts
                  = (strB "('" ++ strB k2 ++ strB "', " ++ wb ++ strB ")") :: tail := by
                cases h; rfl
              subst hparts
              rcases List.mem_cons.mp hmem with hcase | hcase
              · have hk : k2 = k ∧ v2 = w := by
                  constructor <;> [exact congrArg Prod.fst hcase.symm;
                    exact congrArg Prod.snd hcase.symm]
                obtain ⟨rfl, rfl⟩ := hk
                refine ⟨wb, _, hv, List.mem_cons_self _ _, ?_⟩
                exact ⟨strB "('" ++ strB k2 ++ strB "', ", strB ")", by simp⟩
              · obtain ⟨wb2, part, hw2, hpart, hinf⟩ := ih tail ht hcase
                exact ⟨wb2, part, hw2, List.mem_cons_of_mem _ hpart, hinf⟩

/-- If list serialization succeeds, every element was serialized successfully
and its bytes are one of the parts. -/
theorem listParts_mem (l : List Value) (parts : List Bytes)
    (h : marshallListParts l = Except.ok parts) (w : Value) (hmem : w ∈ l) :
    ∃ wb, marshallPlaybookItem w = Except.ok wb ∧ wb ∈ parts := by
  induction l generalizing parts with
  | nil => cases hmem
  | cons v2 rest ih =>
      simp only [marshallListParts, Bind.bind, Except.bind] at h
      cases hv : marshallPlaybookItem v2 with
      | error e => rw [hv] at h; cases h
      | ok wb =>
          rw [hv] at h
          cases ht : marshallListParts rest with
          | error e => rw [ht] at h; cases h
          | ok tail =>
              rw [ht] at h
              have hparts : parts = wb :: tail := by cases h; rfl
              subst hparts
              rcases List.mem_cons.mp hmem with hcase | hcase
              · subst hcase; exact ⟨wb, hv, List.mem_cons_self _ _⟩
              · obtain ⟨wb2, hw2, hpart⟩ := ih tail ht hcase
                exact ⟨wb2, hw2, List.mem_cons_of_mem _ hpart⟩

/-- C1: the claim says an exclusion path whose first segment is outside the
allow-set (`hosts`, `vars`) makes CleanPlaybook fail with a VerificationError
before dropping anything.  The code never consults the allow-set
(`DynamicLabels` is declared at main.go:14 but unused): on a playbook that
excludes `/secrets`, CleanPlaybook succeeds and silently drops the `secrets`
entry. -/
theorem spec_c1_out_of_policy_exclusion_honored :
    GetPlaybookExclusions
        [("secrets", Value.vstr "x"),
         ("vars", Value.vmap [("insights_signature_exclude", Value.vstr "/secrets")])]
      = Except.ok [["secrets"]]
    ∧ CleanPlaybook
        [("secrets", Value.vstr "x"),
         ("vars", Value.vmap [("insights_signature_exclude", Value.vstr "/secrets")])]
      = Except.ok [("vars", Value.vmap [("insights_signature_exclude", Value.vstr "/secrets")])] :=
  ⟨rfl, rfl⟩

/-- C2 counterexample: the claim says a 3-segment path or an empty entry makes
GetPlaybookExclusions fail with a PlaybookError.  On the declaration
`"/a/b/c,"` (one 3-segment path and one empty entry) extraction succeeds,
returning the 3-segment path intact and the empty entry as `[""]`. -/
theorem spec_c2_counterexample :
    GetPlaybookExclusions
        [("vars", Value.vmap [("insights_signature_exclude", Value.vstr "/a/b/c,")])]
      = Except.ok [["a", "b", "c"], [""]] := rfl

/-- C2 amended: GetPlaybookExclusions performs no segment-count validation:
for every nonempty declaration string it succeeds, returning for each
comma-separated entry exactly the slash-split of the entry after stripping
one leading slash — 3+-segment paths come through intact and an empty entry
becomes the single-segment path `[""]`; no PlaybookError is raised for
malformed segment counts. -/
theorem spec_c2_amended_no_length_validation
    (pre post : Document) (vs : List (String × Value)) (raw : String)
    (hpre : ∀ it ∈ pre, it.1 ≠ "vars") (hpost : ∀ it ∈ post, it.1 ≠ "vars")
    (hfound : scanVars vs = some (Value.vstr raw)) (hne : raw ≠ "") :
    GetPlaybookExclusions (pre ++ ("vars", Value.vmap vs) :: post)
      = Except.ok ((goSplit ',' raw.data).map parseExclusionEntry) := by
  have h := findRaw_vars pre post vs "" hpre hpost
  rw [hfound] at h
  simp [GetPlaybookExclusions, Bind.bind, Except.bind, h, hne]

/-- Witness for C2 amended: the declaration `"/w/x/y/z"` parses without
error to the single 4-segment path. -/
theorem spec_c2_amended_witness :
    GetPlaybookExclusions
        [("vars", Value.vmap [("insights_signature_exclude", Value.vstr "/w/x/y/z")])]
      = Except.ok [["w", "x", "y", "z"]] := by
  have h := spec_c2_amended_no_length_validation []
    [] [("insights_signature_exclude", Value.vstr "/w/x/y/z")] "/w/x/y/z"
    (by simp) (by simp) rfl (by decide)
  simpa using h

/-- C3 counterexample: the claim says a one-segment exclusion `[key]` removes
the top-level entry even when its value is a nested mapping.  Excluding
`/vars` leaves the mapping-valued `vars` entry in place: the nested branch of
the loop never applies depth-1 exclusions. -/
theorem spec_c3_counterexample :
    CleanPlaybook [("vars", Value.vmap [("insights_signature_exclude", Value.vstr "/vars")])]
      = Except.ok [("vars", Value.vmap [("insights_signature_exclude", Value.vstr "/vars")])] :=
  rfl

/-- C3 amended: a one-segment exclusion `[key]` removes a top-level entry
only when its value is not a nested mapping; an entry whose value is a
nested mapping is always kept — even when `[key]` is excluded — with only
two-segment exclusions applied to its children. -/
theorem spec_c3_amended_depth1_spares_mappings
    (E : List (List String)) (pre post : Document) (k : String) (v : Value)
    (ns : List (String × Value))
    (hv : isMapSlice v = false) (hmatch : depth1Matches E k = true) :
    cleanLoop E (pre ++ (k, v) :: post) = cleanLoop E (pre ++ post)
    ∧ cleanLoop E (pre ++ (k, Value.vmap ns) :: post)
        = cleanLoop E pre ++ (k, Value.vmap (cleanNested E k ns)) :: cleanLoop E post := by
  constructor
  · simp only [cleanLoop, List.filterMap_append, List.filterMap_cons]
    cases v <;> simp_all [cleanItem, isMapSlice]
  · simp [cleanLoop, List.filterMap_append, List.filterMap_cons, cleanItem]

/-- Witness for C3 amended, with exclusion list `[["a"]]`: the simple-valued
entry `a` is dropped, while a mapping-valued entry under the same excluded
key is kept. -/
theorem spec_c3_amended_witness :
    cleanLoop [["a"]] ([] ++ ("a", Value.vstr "x") :: [("c", Value.vnum 2)])
      = cleanLoop [["a"]] ([] ++ [("c", Value.vnum 2)])
    ∧ cleanLoop [["a"]] ([] ++ ("a", Value.vmap [("b", Value.vnum 1)]) :: [("c", Value.vnum 2)])
      = cleanLoop [["a"]] []
        ++ ("a", Value.vmap (cleanNested [["a"]] "a" [("b", Value.vnum 1)]))
        :: cleanLoop [["a"]] [("c", Value.vnum 2)] :=
  spec_c3_amended_depth1_spares_mappings [["a"]] [] [("c", Value.vnum 2)] "a"
    (Value.vstr "x") [("b", Value.vnum 1)] rfl (by decide)

/-- C4: the claim says serialization is total over all defined tags, renders
Number/Null via their natural unquoted string form, fails with a
SerializationError on an unknown tag, and never panics.  In the code the
`default` branch of marshallPlaybookItem runs `item.(string)` on a value that
is already known not to be a string, so serializing a number or null always
panics; no SerializationError type exists in the program. -/
theorem spec_c4_serializer_panics_on_number_and_null :
    marshallPlaybookItem (Value.vnum 1) = Except.error GoErr.goPanic
    ∧ marshallPlaybookItem Value.vnull = Except.error GoErr.goPanic
    ∧ marshallPlaybookItem (Value.vbool true) = Except.ok (strB "True")
    ∧ marshallPlaybookItem (Value.vstr "a") = Except.ok (strB "'a'") := by
  refine ⟨?_, ?_, ?_, ?_⟩ <;> simp [marshallPlaybookItem, strB]

/-- C5: on the spec's demo document the exclusions parse as claimed and the
filter drops `hosts` and `vars/insights_signature_exclude` as claimed, but
the claimed canonical bytes are never produced: serializing the filtered
document panics on the number `1` (the `item.(string)` default branch). -/
theorem spec_c5_demo_pipeline :
    GetPlaybookExclusions
        [("name", Value.vstr "Demo"),
         ("hosts", Value.vlist [Value.vstr "h1", Value.vstr "h2"]),
         ("vars", Value.vmap
            [("insights_signature_exclude",
              Value.vstr "/hosts,/vars/insights_signature_exclude"),
             ("other", Value.vnum 1)])]
      = Except.ok [["hosts"], ["vars", "insights_signature_exclude"]]
    ∧ CleanPlaybook
        [("name", Value.vstr "Demo"),
         ("hosts", Value.vlist [Value.vstr "h1", Value.vstr "h2"]),
         ("vars", Value.vmap
            [("insights_signature_exclude",
              Value.vstr "/hosts,/vars/insights_signature_exclude"),
             ("other", Value.vnum 1)])]
      = Except.ok [("name", Value.vstr "Demo"),
                   ("vars", Value.vmap [("other", Value.vnum 1)])]
    ∧ MarshallPlaybook [("name", Value.vstr "Demo"),
                        ("vars", Value.vmap [("other", Value.vnum 1)])]
      = Except.error GoErr.goPanic := by
  refine ⟨rfl, rfl, ?_⟩
  simp [MarshallPlaybook, marshallPlaybookMap, marshallMapParts, marshallPlaybookItem,
    Bind.bind, Except.bind]

/-- C6 counterexample: the claim says an `insights_signature_exclude` entry
whose value is not a string makes GetPlaybookExclusions fail with a
PlaybookError.  With the number `5` as value, the failed `pair.Value.(string)`
type assertion panics instead. -/
theorem spec_c6_counterexample :
    GetPlaybookExclusions
        [("vars", Value.vmap [("insights_signature_exclude", Value.vnum 5)])]
      = Except.error GoErr.goPanic := rfl

/-- C6 amended: a document with no top-level `vars` entry, or whose `vars`
mapping has no `insights_signature_exclude` entry, fails with the
PlaybookError; but when the entry is present with a non-string value, the
extractor panics on the failed `pair.Value.(string)` type assertion rather
than returning a PlaybookError. -/
theorem spec_c6_amended_missing_errors_nonstring_panics
    (D pre post : Document) (vs : List (String × Value))
    (hD : ∀ it ∈ D, it.1 ≠ "vars")
    (hpre : ∀ it ∈ pre, it.1 ≠ "vars") (hpost : ∀ it ∈ post, it.1 ≠ "vars") :
    GetPlaybookExclusions D
      = Except.error (GoErr.playbookError "playbook doesn't contain key 'insights_signature_exclude'")
    ∧ (scanVars vs = none →
        GetPlaybookExclusions (pre ++ ("vars", Value.vmap vs) :: post)
          = Except.error (GoErr.playbookError "playbook doesn't contain key 'insights_signature_exclude'"))
    ∧ (∀ v, scanVars vs = some v → isStr v = false →
        GetPlaybookExclusions (pre ++ ("vars", Value.vmap vs) :: post)
          = Except.error GoErr.goPanic) := by
  refine ⟨?_, ?_, ?_⟩
  · simp [GetPlaybookExclusions, Bind.bind, Except.bind, findRaw_none D "" hD]
  · intro hnone
    have h := findRaw_vars pre post vs "" hpre hpost
    rw [hnone] at h
    simp [GetPlaybookExclusions, Bind.bind, Except.bind, h]
  · intro v hsome hstr
    have h := findRaw_vars pre post vs "" hpre hpost
    rw [hsome] at h
    cases v <;> simp_all [isStr, GetPlaybookExclusions, Bind.bind, Except.bind]

/-- Witness for C6 amended, at a document without `vars`, and a `vars`
mapping whose `insights_signature_exclude` value is null. -/
theorem spec_c6_amended_witness :
    GetPlaybookExclusions [("name", Value.vstr "x")]
      = Except.error (GoErr.playbookError "playbook doesn't contain key 'insights_signature_exclude'")
    ∧ GetPlaybookExclusions [("vars", Value.vmap [("insights_signature_exclude", Value.vnull)])]
      = Except.error GoErr.goPanic := by
  have h := spec_c6_amended_missing_errors_nonstring_panics
    [("name", Value.vstr "x")] [] []
    [("insights_signature_exclude", Value.vnull)]
    (by simp) (by simp) (by simp)
  exact ⟨h.1, by simpa using h.2.2 Value.vnull rfl rfl⟩

/-- C7: order preservation.  The key sequence of the filtered document is the
input key sequence with exactly the dropped entries removed (an entry is
dropped iff its value is not a nested mapping and a depth-1 exclusion matches
its key), and is in particular a subsequence of the input key sequence.
Exclusion lists are restricted to nonempty paths, the only lists
GetPlaybookExclusions can produce (an empty path would panic in Go on
`exclusion[0]`). -/
theorem spec_c7_order_preservation (D : Document) (E : List (List String))
    (_hE : ∀ e ∈ E, e ≠ []) :
    docKeys (cleanLoop E D) = docKeys (D.filter (keepsEntry E))
    ∧ List.Sublist (docKeys (cleanLoop E D)) (docKeys D) := by
  have heq : docKeys (cleanLoop E D) = docKeys (D.filter (keepsEntry E)) := by
    induction D with
    | nil => rfl
    | cons it rest ih =>
        obtain ⟨k, v⟩ := it
        have hstep : docKeys (cleanLoop E ((k, v) :: rest))
            = (if keepsEntry E (k, v) then [k] else []) ++ docKeys (cleanLoop E rest) := by
          cases v <;> cases hd : depth1Matches E k <;>
            simp [cleanLoop, docKeys, List.filterMap_cons, cleanItem, keepsEntry,
              isMapSlice, hd]
        have hstep2 : docKeys (((k, v) :: rest).filter (keepsEntry E))
            = (if keepsEntry E (k, v) then [k] else [])
              ++ docKeys (rest.filter (keepsEntry E)) := by
          cases hk : keepsEntry E (k, v) <;> simp [docKeys, List.filter_cons, hk]
        rw [hstep, hstep2, ih]
  refine ⟨heq, ?_⟩
  rw [heq]
  simpa [docKeys] using (List.filter_sublist (p := keepsEntry E) D).map Prod.fst

/-- Witness for C7 at a concrete document and exclusion list. -/
theorem spec_c7_witness :
    docKeys (cleanLoop [["a"]] [("a", Value.vstr "x"), ("b", Value.vmap [("c", Value.vnull)])])
      = docKeys (([("a", Value.vstr "x"), ("b", Value.vmap [("c", Value.vnull)])]).filter
          (keepsEntry [["a"]]))
    ∧ List.Sublist
        (docKeys (cleanLoop [["a"]] [("a", Value.vstr "x"), ("b", Value.vmap [("c", Value.vnull)])]))
        (docKeys [("a", Value.vstr "x"), ("b", Value.vmap [("c", Value.vnull)])]) :=
  spec_c7_order_preservation
    [("a", Value.vstr "x"), ("b", Value.vmap [("c", Value.vnull)])] [["a"]] (by decide)

/-- C8: idempotence.  Filtering an already-filtered document with the same
exclusion list yields an identical document.  Exclusion lists are restricted
to nonempty paths, the only lists GetPlaybookExclusions can produce. -/
theorem spec_c8_filter_idempotent (D : Document) (E : List (List String))
    (_hE : ∀ e ∈ E, e ≠ []) :
    cleanLoop E (cleanLoop E D) = cleanLoop E D := by
  have key : ∀ a, (cleanItem E a).bind (cleanItem E) = cleanItem E a := by
    rintro ⟨k, v⟩
    cases v with
    | vmap ns => simp [cleanItem, cleanNested, List.filter_filter]
    | vlist l => cases hd : depth1Matches E k <;> simp [cleanItem, hd]
    | vbool b => cases hd : depth1Matches E k <;> simp [cleanItem, hd]
    | vstr s => cases hd : depth1Matches E k <;> simp [cleanItem, hd]
    | vnum n => cases hd : depth1Matches E k <;> simp [cleanItem, hd]
    | vnull => cases hd : depth1Matches E k <;> simp [cleanItem, hd]
  rw [cleanLoop, cleanLoop, List.filterMap_filterMap]
  simp only [key]

/-- Witness for C8 at a concrete document and exclusion list. -/
theorem spec_c8_witness :
    cleanLoop [["a"], ["b", "c"]]
        (cleanLoop [["a"], ["b", "c"]]
          [("a", Value.vstr "x"), ("b", Value.vmap [("c", Value.vnull), ("d", Value.vnum 1)])])
      = cleanLoop [["a"], ["b", "c"]]
          [("a", Value.vstr "x"), ("b", Value.vmap [("c", Value.vnull), ("d", Value.vnum 1)])] :=
  spec_c8_filter_idempotent
    [("a", Value.vstr "x"), ("b", Value.vmap [("c", Value.vnull), ("d", Value.vnum 1)])]
    [["a"], ["b", "c"]] (by decide)

/-- C9: every boolean renders as the literal capitalized `True`/`False`, and
wherever a boolean occurs inside a value — at any nesting depth, lists
included — those exact bytes appear inside the successful serialization. -/
theorem spec_c9_bool_rendering (b : Bool) :
    marshallPlaybookItem (Value.vbool b) = Except.ok (boolBytes b)
    ∧ ∀ v bs, Occurs (Value.vbool b) v → marshallPlaybookItem v = Except.ok bs →
        boolBytes b <:+: bs := by
  have hbool : marshallPlaybookItem (Value.vbool b) = Except.ok (boolBytes b) := by
    cases b <;> simp [marshallPlaybookItem, boolBytes]
  refine ⟨hbool, ?_⟩
  intro v bs hocc
  induction hocc generalizing bs with
  | refl =>
      intro h
      rw [hbool] at h
      have hb : boolBytes b = bs := by cases h; rfl
      rw [← hb]
  | inMap hmem hsub ih =>
      intro h
      simp only [marshallPlaybookItem, Bind.bind, Except.bind] at h
      rename_i m
      cases hp : marshallMapParts m with
      | error e => rw [hp] at h; cases h
      | ok parts =>
          rw [hp] at h
          have hbs : bs = strB "ordereddict([" ++ joinSep (strB ", ") parts ++ strB "])" := by
            cases h; rfl
          obtain ⟨wb, part, hwb, hpart, hinf⟩ := mapParts_mem m parts hp _ _ hmem
          have h1 := ih wb hwb
          have h2 := infix_joinSep (strB ", ") parts part hpart
          rw [hbs]
          exact h1.trans (hinf.trans (h2.trans
            ⟨strB "ordereddict([", strB "])", by simp⟩))
  | inList hmem hsub ih =>
      intro h
      simp only [marshallPlaybookItem, Bind.bind, Except.bind] at h
      rename_i l
      cases hp : marshallListParts l with
      | error e => rw [hp] at h; cases h
      | ok parts =>
          rw [hp] at h
          have hbs : bs = strB "[" ++ joinSep (strB ", ") parts ++ strB "]" := by
            cases h; rfl
          obtain ⟨wb, hwb, hpart⟩ := listParts_mem l parts hp _ hmem
          have h1 := ih wb hwb
          have h2 := infix_joinSep (strB ", ") parts wb hpart
          rw [hbs]
          exact h1.trans (h2.trans ⟨strB "[", strB "]", by simp⟩)

/-- Witness for C9: `true` inside a list renders as the capitalized literal
inside the list's serialization. -/
theorem spec_c9_witness :
    marshallPlaybookItem (Value.vbool true) = Except.ok (boolBytes true)
    ∧ boolBytes true <:+: strB "[True]" := by
  have h := spec_c9_bool_rendering true
  refine ⟨h.1, ?_⟩
  exact h.2 (Value.vlist [Value.vbool true]) (strB "[True]")
    (Occurs.inList (List.mem_singleton.mpr rfl) Occurs.refl)
    (by simp [marshallPlaybookItem, marshallListParts, Bind.bind, Except.bind,
      joinSep, strB])

/-- C10: an `insights_signature_exclude` entry whose value is the empty
string fails with exactly the same PlaybookError as a document whose `vars`
mapping lacks the key entirely — the two are indistinguishable at the public
interface. -/
theorem spec_c10_empty_exclusion_same_error
    (pre post pre2 post2 : Document) (vs vs2 : List (String × Value))
    (hpre : ∀ it ∈ pre, it.1 ≠ "vars") (hpost : ∀ it ∈ post, it.1 ≠ "vars")
    (hempty : scanVars vs = some (Value.vstr ""))
    (hpre2 : ∀ it ∈ pre2, it.1 ≠ "vars") (hpost2 : ∀ it ∈ post2, it.1 ≠ "vars")
    (habsent : scanVars vs2 = none) :
    GetPlaybookExclusions (pre ++ ("vars", Value.vmap vs) :: post)
      = Except.error (GoErr.playbookError "playbook doesn't contain key 'insights_signature_exclude'")
    ∧ GetPlaybookExclusions (pre ++ ("vars", Value.vmap vs) :: post)
      = GetPlaybookExclusions (pre2 ++ ("vars", Value.vmap vs2) :: post2) := by
  have h1 := findRaw_vars pre post vs "" hpre hpost
  rw [hempty] at h1
  have h2 := findRaw_vars pre2 post2 vs2 "" hpre2 hpost2
  rw [habsent] at h2
  constructor
  · simp [GetPlaybookExclusions, Bind.bind, Except.bind, h1]
  · simp [GetPlaybookExclusions, Bind.bind, Except.bind, h1, h2]

/-- Witness for C10: an empty declaration and an absent one produce the same
error on concrete documents. -/
theorem spec_c10_witness :
    GetPlaybookExclusions [("vars", Value.vmap [("insights_signature_exclude", Value.vstr "")])]
      = Except.error (GoErr.playbookError "playbook doesn't contain key 'insights_signature_exclude'")
    ∧ GetPlaybookExclusions [("vars", Value.vmap [("insights_signature_exclude", Value.vstr "")])]
      = GetPlaybookExclusions [("vars", Value.vmap [("other", Value.vnum 1)])] := by
  have h := spec_c10_empty_exclusion_same_error [] [] [] []
    [("insights_signature_exclude", Value.vstr "")] [("other", Value.vnum 1)]
    (by simp) (by simp) rfl (by simp) (by simp) rfl
  simpa using h

end PlaybookVerifier
